import Mathlib

/-!
Verification of the quackgraph core: a shallow embedding of the string
interner (crates/quack_core/src/interner.rs), the backtracking subgraph
isomorphism matcher (crates/quack_core/src/matcher.rs) and the host-facing
binding layer (packages/native/src/lib.rs), together with theorems settling
the specification claims about them.

The topology module (GraphIndex) is not part of the sources; only the
interface the matcher and the binding layer consume is modelled, following
the description of the adjacency store in the specification.
-/

set_option autoImplicit false

/-! ## Interner (crates/quack_core/src/interner.rs)

A bidirectional map between String IDs and dense integer indices.  The Rust
struct holds a `HashMap<String, u32>` and a `Vec<String>`; the hash map is
embedded as an association list with first-match lookup, and u32 indices as
`Nat` (the `usize -> u32` cast in `intern` is the identity below 2^32, the
only regime the claims concern). -/

structure Interner where
  map : List (String × Nat)
  vec : List String
  deriving Repr

/-- Constructor `Interner::new`. -/
def Interner.new : Interner := { map := [], vec := [] }

/-- Method `Interner::intern`: returns the existing ID if present, or pushes the
name and assigns `vec.len()` as its new ID.  The Rust method mutates
`&mut self` and returns the id; the embedding returns the pair of the new
state and the id. -/
def Interner.intern (s : Interner) (name : String) : Interner × Nat :=
  match s.map.lookup name with
  | some id => (s, id)
  | none =>
    let id := s.vec.length
    ({ map := (name, id) :: s.map, vec := s.vec ++ [name] }, id)

/-- Method `Interner::lookup`: reverse lookup, `vec.get(id)`. -/
def Interner.lookup (s : Interner) (id : Nat) : Option String :=
  s.vec[id]?

/-- Method `Interner::lookup_id`: non-mutating forward lookup, `map.get(name)`. -/
def Interner.lookup_id (s : Interner) (name : String) : Option Nat :=
  s.map.lookup name

/-- Method `Interner::len`: `vec.len()`. -/
def Interner.len (s : Interner) : Nat :=
  s.vec.length

/-- Method `Interner::is_empty`. -/
def Interner.is_empty (s : Interner) : Bool :=
  s.vec.isEmpty

/-- Well-formedness of an interner state: every id recorded in the hash map
points at the entry of `vec` holding exactly that name.  Rust keeps the two
private fields in sync, so every state reachable through the public API
satisfies this (see `Interner.WF_new` and `Interner.WF_intern`). -/
def Interner.WF (s : Interner) : Prop :=
  ∀ n i, (n, i) ∈ s.map → s.vec[i]? = some n

/-- Interning a whole list of names in order, starting from a given state. -/
def internList (s : Interner) (l : List String) : Interner :=
  l.foldl (fun t n => (t.intern n).1) s

/-! ## Matcher data types (crates/quack_core/src/matcher.rs) -/

/-- The `Direction` enum of the topology module (its definition is fixed by its
uses in matcher.rs and lib.rs: a two-variant enum). -/
inductive Direction where
  | Outgoing
  | Incoming
  deriving DecidableEq, Repr

/-- The `PatternEdge` struct of matcher.rs. -/
structure PatternEdge where
  src_var : Nat
  tgt_var : Nat
  type_id : Nat
  direction : Direction
  deriving Repr

/-- Modelled from the spec: the topology module (`GraphIndex`) is not among
the sources, so only the query interface consumed by matcher.rs and
lib.rs is embedded, as abstract functions.  Signatures follow the call
sites: in particular `get_neighbors` is invoked by the matcher as
`get_neighbors(node, type_id, direction)`, with no timestamp parameter. -/
structure GraphIndex where
  get_neighbors : Nat → Nat → Direction → List Nat
  is_node_deleted : Nat → Bool
  get_type_id : String → Option Nat
  lookup_id : String → Option Nat
  lookup_str : Nat → Option String
  traverse : List String → Option String → Direction → Option Int → List String
  traverse_recursive : List String → Option String → Direction → Nat → Nat → Option Int → List String

/-! ## Matcher algorithm (crates/quack_core/src/matcher.rs) -/

/-- Method `Matcher::intersect`: `None` means "no constraint yet"; intersecting a
current candidate list with a neighbor list keeps the current elements that
occur in the neighbor list (Rust builds a `HashSet` from `next` and filters
`curr` through it). -/
def intersect (current : Option (List Nat)) (next : List Nat) : Option (List Nat) :=
  match current with
  | none => some next
  | some curr => some (curr.filter (fun id => next.contains id))

/-- One iteration of the constraint loop in `Matcher::backtrack`: a pattern
edge touching `current_var` from an already-bound variable contributes a
neighbor-list intersection.  `assignment[j].unwrap()` is embedded as
`(assignment.getD j none).getD 0`; the default is unreachable because every
variable below `current_var` is bound when this runs. -/
def edgeStep (g : GraphIndex) (current_var : Nat) (assignment : List (Option Nat))
    (cands : Option (List Nat)) (edge : PatternEdge) : Option (List Nat) :=
  if edge.src_var < current_var ∧ edge.tgt_var = current_var then
    intersect cands
      (g.get_neighbors ((assignment.getD edge.src_var none).getD 0) edge.type_id Direction.Outgoing)
  else if edge.src_var = current_var ∧ edge.tgt_var < current_var then
    intersect cands
      (g.get_neighbors ((assignment.getD edge.tgt_var none).getD 0) edge.type_id Direction.Incoming)
  else cands

/-- The candidate computation of `Matcher::backtrack` (its first loop over
`self.pattern`).  The source returns early once the candidate list becomes
`Some` and empty; since `intersect (some []) next = some []`, folding to the
end yields the same value, so the early exit is dropped. -/
def computeCandidates (g : GraphIndex) (pattern : List PatternEdge) (current_var : Nat)
    (assignment : List (Option Nat)) (acc : Option (List Nat)) : Option (List Nat) :=
  pattern.foldl (edgeStep g current_var assignment) acc

/-- Method `Matcher::backtrack`, with the recursion driven by the number of still
unbound variables (`fuel = num_vars - current_var`; the Rust base-case test
`current_var == self.num_vars` is exactly `fuel == 0` on every call the
solver makes).  The Rust code mutates `assignment`, `used_nodes` and
`results`; each loop iteration restores `assignment[current_var]` and
`used_nodes` before the next one, so the iterations are independent and the
embedding passes the updated copies down and concatenates the results in
iteration order. -/
def backtrackAux (g : GraphIndex) (pattern : List PatternEdge) :
    Nat → Nat → List (Option Nat) → List Nat → List (List Nat)
  | 0, _, assignment, _ =>
    [assignment.map (fun o => o.getD 0)]
  | fuel + 1, current_var, assignment, used =>
    match computeCandidates g pattern current_var assignment none with
    | none => []
    | some cands =>
      (cands.filter (fun c => ! used.contains c)).flatMap
        (fun cand =>
          backtrackAux g pattern fuel (current_var + 1)
            (assignment.set current_var (some cand)) (cand :: used))

/-- Field `num_vars` as computed by `Matcher::new`: one more than the largest
variable mentioned by the pattern. -/
def maxVar (pattern : List PatternEdge) : Nat :=
  pattern.foldl (fun m e => max m (max e.src_var e.tgt_var)) 0

def numVars (pattern : List PatternEdge) : Nat :=
  maxVar pattern + 1

/-- Method `Matcher::find_matches`: seed variable 0 with each start candidate that
is not tombstoned and backtrack from variable 1. -/
def find_matches (g : GraphIndex) (pattern : List PatternEdge)
    (start_candidates : List Nat) : List (List Nat) :=
  (start_candidates.filter (fun s => ! g.is_node_deleted s)).flatMap
    (fun s =>
      backtrackAux g pattern (numVars pattern - 1) 1
        ((List.replicate (numVars pattern) none).set 0 (some s)) [s])

/-! ## Host binding layer (packages/native/src/lib.rs) -/

/-- The `JsPatternEdge` struct of lib.rs. -/
structure JsPatternEdge where
  src_var : Nat
  tgt_var : Nat
  edge_type : String
  direction : Option String
  deriving Repr

/-- The direction parsing used by `traverse`, `traverse_recursive` and
`match_pattern`: `Some("in") | Some("IN")` is Incoming, anything else
(including absent) is Outgoing. -/
def parseDir (d : Option String) : Direction :=
  match d with
  | some "in" => Direction.Incoming
  | some "IN" => Direction.Incoming
  | _ => Direction.Outgoing

/-- The pattern-resolution loop of `NativeGraph::match_pattern`: each edge
type label is resolved through `get_type_id`; on the first unknown label the
Rust method returns an empty result vector immediately, embedded here as
`none`. -/
def resolvePattern (g : GraphIndex) : List JsPatternEdge → Option (List PatternEdge)
  | [] => some []
  | p :: rest =>
    match g.get_type_id p.edge_type with
    | none => none
    | some tid =>
      match resolvePattern g rest with
      | none => none
      | some core => some (⟨p.src_var, p.tgt_var, tid, parseDir p.direction⟩ :: core)

/-- Method `NativeGraph::match_pattern`.  The source computes
`ts = as_of.map(|t| t as i64)` and hands it to `find_matches` together with
the start candidates; the matcher in matcher.rs declares `find_matches`
without any timestamp parameter and never filters temporally, so the
timestamp cannot influence the result and the embedding drops it at the
same point the matcher does. -/
def NativeGraph.match_pattern (g : GraphIndex) (start_ids : List String)
    (pattern : List JsPatternEdge) (as_of : Option Int) : List (List String) :=
  match resolvePattern g pattern with
  | none => []
  | some core_pattern =>
    let start_candidates := start_ids.filterMap g.lookup_id
    if start_candidates.isEmpty then []
    else
      (find_matches g core_pattern start_candidates).map
        (fun row => row.filterMap g.lookup_str)

/-- The timestamp conversion `let ts = as_of.map(|t| t as i64)` computed by
`NativeGraph::match_pattern` before it invokes the matcher: no scaling is
applied (the `f64` input modelled as an integer).  The matcher then drops
this value: `find_matches` in matcher.rs declares no timestamp parameter,
so the converted timestamp never reaches the index. -/
def NativeGraph.match_pattern_ts (as_of : Option Int) : Option Int :=
  as_of.map (fun t => t)

/-- Method `NativeGraph::add_edge`: the millisecond timestamps are converted with
`t.map(|t| (t * 1000.0) as i64)` and forwarded to `GraphIndex::add_edge`.
The embedding returns the argument tuple of that inner call; the `f64`
inputs are modelled as integers, on which the multiply-then-truncate is
exactly multiplication by 1000. -/
def NativeGraph.add_edge (source target edge_type : String)
    (valid_from valid_to : Option Int) :
    String × String × String × Option Int × Option Int :=
  (source, target, edge_type, valid_from.map (fun t => t * 1000),
    valid_to.map (fun t => t * 1000))

/-- Method `NativeGraph::traverse`: `as_of` is converted with `map(|t| t as i64)`,
i.e. passed through without scaling (`f64` inputs modelled as integers). -/
def NativeGraph.traverse (g : GraphIndex) (sources : List String)
    (edge_type : Option String) (direction : Option String) (as_of : Option Int) :
    List String :=
  g.traverse sources edge_type (parseDir direction) (as_of.map (fun t => t))

/-- Method `NativeGraph::traverse_recursive`: depth bounds default to 1 via
`unwrap_or(1)`; `as_of` is passed through without scaling. -/
def NativeGraph.traverse_recursive (g : GraphIndex) (sources : List String)
    (edge_type : Option String) (direction : Option String)
    (min_depth max_depth : Option Nat) (as_of : Option Int) : List String :=
  g.traverse_recursive sources edge_type (parseDir direction)
    (min_depth.getD 1) (max_depth.getD 1) (as_of.map (fun t => t))

/-! ## Temporal filter and concrete indices (modelled from the spec) -/

/-- Modelled from the spec: the temporal admission predicate of the
adjacency store (topology.rs, not among the sources).  A timestamp `ts`
admits an edge iff `vf` is absent or `vf ≤ ts`, and `vt` is absent or
`ts < vt`; an absent `ts` admits every edge regardless of its bounds. -/
def edge_admitted (vf vt : Option Int) (ts : Option Int) : Bool :=
  match ts with
  | none => true
  | some t =>
    (match vf with | none => true | some f => decide (f ≤ t)) &&
    (match vt with | none => true | some u => decide (t < u))

/-- Modelled from the spec: one adjacency record of the store, carrying the
endpoints, the edge-type id and the optional validity interval. -/
structure EdgeRec where
  src : Nat
  dst : Nat
  type_id : Nat
  valid_from : Option Int
  valid_to : Option Int
  deriving Repr

/-- Modelled from the spec: the neighbor lookup of the adjacency store as
the matcher consumes it.  Its signature (fixed by the call sites in
matcher.rs) has no timestamp parameter, so it can select on node, type and
direction only. -/
def neighborsOf (es : List EdgeRec) (n t : Nat) (d : Direction) : List Nat :=
  match d with
  | Direction.Outgoing => (es.filter (fun e => e.src == n && e.type_id == t)).map (fun e => e.dst)
  | Direction.Incoming => (es.filter (fun e => e.dst == n && e.type_id == t)).map (fun e => e.src)

/-- Modelled from the spec: a concrete index over an edge list with no
tombstones, used to evaluate the matcher and the binding layer on concrete
inputs.  The traversal fields are inert; no theorem below depends on them. -/
def mkIndex (es : List EdgeRec) (tid : String → Option Nat)
    (nid : String → Option Nat) (nstr : Nat → Option String) : GraphIndex :=
  { get_neighbors := neighborsOf es
    is_node_deleted := fun _ => false
    get_type_id := tid
    lookup_id := nid
    lookup_str := nstr
    traverse := fun _ _ _ _ => []
    traverse_recursive := fun _ _ _ _ _ _ => [] }

/-- Type-label table with the single type `t` as id 0. -/
def tidT : String → Option Nat := fun s => if s = "t" then some 0 else none

/-- Node-id table for the two-node examples: `A` is 0, `B` is 1. -/
def nidAB : String → Option Nat :=
  fun s => if s = "A" then some 0 else if s = "B" then some 1 else none

def nstrAB : Nat → Option String :=
  fun n => if n = 0 then some "A" else if n = 1 then some "B" else none

/-- The single edge `A ──t──▶ B` valid over `[1000, 2000)` microseconds. -/
def edgesAB : List EdgeRec := [⟨0, 1, 0, some 1000, some 2000⟩]

/-- Index holding exactly the edge `A ──t──▶ B` valid over `[1000, 2000)`. -/
def gAB : GraphIndex := mkIndex edgesAB tidT nidAB nstrAB

/-- Index holding exactly the self-loop `A ──t──▶ A` (no validity bounds). -/
def gSelf : GraphIndex :=
  mkIndex [⟨0, 0, 0, none, none⟩] tidT
    (fun s => if s = "A" then some 0 else none)
    (fun n => if n = 0 then some "A" else none)

/-! ## Interner lemmas -/

theorem lookup_mem {α β : Type} [BEq α] [LawfulBEq α] {l : List (α × β)} {k : α} {b : β}
    (h : l.lookup k = some b) : (k, b) ∈ l := by
  obtain ⟨l₁, l₂, rfl, -⟩ := List.lookup_eq_some_iff.mp h
  simp

theorem Interner.intern_of_found (s : Interner) (name : String) (id : Nat)
    (h : s.map.lookup name = some id) : s.intern name = (s, id) := by
  simp [Interner.intern, h]

theorem Interner.intern_of_not_found (s : Interner) (name : String)
    (h : s.map.lookup name = none) :
    s.intern name =
      ({ map := (name, s.vec.length) :: s.map, vec := s.vec ++ [name] }, s.vec.length) := by
  simp [Interner.intern, h]

theorem Interner.WF_new : Interner.new.WF := by
  intro n i h
  simp [Interner.new] at h

theorem Interner.WF_intern (s : Interner) (h : s.WF) (name : String) :
    ((s.intern name).1).WF := by
  cases hm : s.map.lookup name with
  | some id =>
    rw [Interner.intern_of_found s name id hm]
    exact h
  | none =>
    rw [Interner.intern_of_not_found s name hm]
    intro n i hmem
    simp only [List.mem_cons] at hmem
    rcases hmem with heq | htail
    · have h1 : n = name := congrArg Prod.fst heq
      have h2 : i = s.vec.length := congrArg Prod.snd heq
      subst h1
      subst h2
      exact List.getElem?_concat_length _ _
    · have hv := h n i htail
      have hi : i < s.vec.length := by
        by_contra hge
        rw [List.getElem?_eq_none_iff.mpr (Nat.le_of_not_lt hge)] at hv
        exact Option.noConfusion hv
      show (s.vec ++ [name])[i]? = some n
      rw [List.getElem?_append_left hi]
      exact hv

/-- Claim C3: for every well-formed interner state (the invariant every
state reachable through the public API satisfies, see `Interner.WF_new` and
`Interner.WF_intern`) and every string, looking up the id returned by
`intern` yields exactly that string, and a second `intern` of the same
string returns the same id. -/
theorem interner_roundtrip (s : Interner) (name : String) (h : s.WF) :
    (s.intern name).1.lookup (s.intern name).2 = some name ∧
    ((s.intern name).1.intern name).2 = (s.intern name).2 := by
  cases hm : s.map.lookup name with
  | some id =>
    rw [Interner.intern_of_found s name id hm]
    exact ⟨h name id (lookup_mem hm), by rw [Interner.intern_of_found s name id hm]⟩
  | none =>
    rw [Interner.intern_of_not_found s name hm]
    refine ⟨?_, ?_⟩
    · show (s.vec ++ [name])[s.vec.length]? = some name
      exact List.getElem?_concat_length _ _
    · show (Interner.intern ⟨(name, s.vec.length) :: s.map, s.vec ++ [name]⟩ name).2
        = s.vec.length
      rw [Interner.intern_of_found _ name s.vec.length (by simp)]

theorem interner_roundtrip_witness :
    (Interner.new.intern "A").1.lookup (Interner.new.intern "A").2 = some "A" ∧
    ((Interner.new.intern "A").1.intern "A").2 = (Interner.new.intern "A").2 :=
  interner_roundtrip Interner.new "A" (by intro n i hmem; simp [Interner.new] at hmem)

/-- Claim C10: `Interner::lookup` is total; it returns `none` exactly on the
ids that have not been assigned, i.e. those at or above `len`. -/
theorem lookup_total (s : Interner) (id : Nat) :
    s.lookup id = none ↔ s.len ≤ id := by
  simp [Interner.lookup, Interner.len]

theorem lookup_total_witness : Interner.new.lookup 5 = none :=
  (lookup_total Interner.new 5).mpr (by decide)

theorem internList_nil (s : Interner) : internList s [] = s := rfl

theorem internList_cons (s : Interner) (b : String) (l : List String) :
    internList s (b :: l) = internList ((s.intern b).1) l := rfl

theorem internList_append_singleton (s : Interner) (l : List String) (a : String) :
    internList s (l ++ [a]) = ((internList s l).intern a).1 := by
  simp [internList, List.foldl_append]

theorem intern_id_of_not_found (s : Interner) (name : String)
    (h : s.lookup_id name = none) : (s.intern name).2 = s.len := by
  rw [Interner.intern_of_not_found s name h]
  rfl

theorem intern_len (s : Interner) (name : String) :
    ((s.intern name).1).len =
      if (s.lookup_id name).isSome then s.len else s.len + 1 := by
  cases hm : s.map.lookup name with
  | some id =>
    rw [Interner.intern_of_found s name id hm]
    simp [Interner.lookup_id, hm]
  | none =>
    rw [Interner.intern_of_not_found s name hm]
    simp [Interner.lookup_id, hm, Interner.len]

theorem intern_lookup_id_of_found (s : Interner) (b : String) (id : Nat)
    (h : s.map.lookup b = some id) (a : String) :
    ((s.intern b).1).lookup_id a = s.lookup_id a := by
  rw [Interner.intern_of_found s b id h]

theorem intern_lookup_id_of_not_found (s : Interner) (b : String)
    (h : s.map.lookup b = none) (a : String) :
    ((s.intern b).1).lookup_id a =
      if a = b then some s.len else s.lookup_id a := by
  rw [Interner.intern_of_not_found s b h]
  show ((b, s.vec.length) :: s.map).lookup a = _
  rw [List.lookup_cons]
  by_cases hab : a = b
  · subst hab
    simp [Interner.len]
  · have : (a == b) = false := beq_eq_false_iff_ne.mpr hab
    simp [this, hab, Interner.lookup_id]

/-- The ids recorded by the map are exactly `0, 1, ..., len - 1`. -/
def IdsDense (s : Interner) : Prop :=
  ∀ i, (∃ n, s.lookup_id n = some i) ↔ i < s.len

theorem IdsDense_new : IdsDense Interner.new := by
  intro i
  simp [Interner.lookup_id, Interner.new, Interner.len]

theorem IdsDense_intern (s : Interner) (h : IdsDense s) (b : String) :
    IdsDense ((s.intern b).1) := by
  cases hm : s.map.lookup b with
  | some id =>
    intro i
    rw [intern_len, if_pos (by simp [Interner.lookup_id, hm])]
    constructor
    · rintro ⟨n, hn⟩
      rw [intern_lookup_id_of_found s b id hm] at hn
      exact (h i).mp ⟨n, hn⟩
    · intro hi
      obtain ⟨n, hn⟩ := (h i).mpr hi
      exact ⟨n, by rw [intern_lookup_id_of_found s b id hm]; exact hn⟩
  | none =>
    intro i
    rw [intern_len, if_neg (by simp [Interner.lookup_id, hm])]
    constructor
    · rintro ⟨n, hn⟩
      rw [intern_lookup_id_of_not_found s b hm] at hn
      by_cases hnb : n = b
      · rw [if_pos hnb] at hn
        injection hn with hn
        omega
      · rw [if_neg hnb] at hn
        have := (h i).mp ⟨n, hn⟩
        omega
    · intro hi
      rcases Nat.lt_succ_iff_lt_or_eq.mp hi with hlt | heq
      · obtain ⟨n, hn⟩ := (h i).mpr hlt
        have hnb : n ≠ b := by
          intro hcontra
          subst hcontra
          rw [show s.lookup_id n = none from hm] at hn
          exact Option.noConfusion hn
        exact ⟨n, by rw [intern_lookup_id_of_not_found s b hm, if_neg hnb]; exact hn⟩
      · exact ⟨b, by rw [intern_lookup_id_of_not_found s b hm, if_pos rfl, heq]⟩

theorem IdsDense_internList (l : List String) (s : Interner) (h : IdsDense s) :
    IdsDense (internList s l) := by
  induction l generalizing s with
  | nil => exact h
  | cons b l ih =>
    rw [internList_cons]
    exact ih _ (IdsDense_intern s h b)

theorem intern_lookup_isSome (s : Interner) (b a : String) :
    (((s.intern b).1).lookup_id a).isSome = true ↔
      a = b ∨ (s.lookup_id a).isSome = true := by
  cases hm : s.map.lookup b with
  | some id =>
    rw [intern_lookup_id_of_found s b id hm]
    constructor
    · intro hs
      exact Or.inr hs
    · rintro (rfl | hs)
      · simp [Interner.lookup_id, hm]
      · exact hs
  | none =>
    rw [intern_lookup_id_of_not_found s b hm]
    by_cases hab : a = b
    · simp [hab]
    · simp [hab]

theorem internList_lookup_isSome (l : List String) (s : Interner) (a : String) :
    (((internList s l).lookup_id a).isSome = true) ↔
      a ∈ l ∨ (s.lookup_id a).isSome = true := by
  induction l generalizing s with
  | nil => simp [internList_nil]
  | cons b l ih =>
    rw [internList_cons, ih, List.mem_cons, intern_lookup_isSome]
    tauto

theorem internList_len_card (l : List String) :
    (internList Interner.new l).len = l.toFinset.card := by
  induction l using List.reverseRecOn with
  | nil => rfl
  | append_singleton l a ih =>
    rw [internList_append_singleton, intern_len, ih]
    have hdom : ((internList Interner.new l).lookup_id a).isSome = true ↔ a ∈ l := by
      rw [internList_lookup_isSome]
      simp [Interner.lookup_id, Interner.new]
    by_cases ha : a ∈ l
    · rw [if_pos (hdom.mpr ha)]
      congr 1
      simp only [List.toFinset_append, List.toFinset_cons, List.toFinset_nil,
        insert_emptyc_eq]
      rw [Finset.union_comm, ← Finset.insert_eq]
      exact (Finset.insert_eq_self.mpr (List.mem_toFinset.mpr ha)).symm
    · rw [if_neg (by rw [hdom]; exact ha)]
      rw [List.toFinset_append]
      simp only [List.toFinset_cons, List.toFinset_nil, insert_emptyc_eq]
      rw [Finset.union_comm, ← Finset.insert_eq,
        Finset.card_insert_of_not_mem (fun hc => ha (List.mem_toFinset.mp hc))]

/-- Claim C8: starting from a fresh interner, after any sequence of intern
calls the assigned ids are exactly `0, ..., len - 1` (so a string seen for
the first time gets the smallest unused id, namely `len`), and `len` equals
the number of distinct strings interned; concretely, interning `A`, `B`, `A`
yields ids 0, 1, 0 with `len = 2` and `lookup 1 = some B`. -/
theorem intern_dense_len :
    (∀ (l : List String) (name : String) (i : Nat),
      ((internList Interner.new l).lookup_id name = none →
        ((internList Interner.new l).intern name).2 = (internList Interner.new l).len) ∧
      ((∃ n, (internList Interner.new l).lookup_id n = some i) ↔
        i < (internList Interner.new l).len) ∧
      (internList Interner.new l).len = l.toFinset.card) ∧
    ((Interner.new.intern "A").2 = 0 ∧
      ((Interner.new.intern "A").1.intern "B").2 = 1 ∧
      (((Interner.new.intern "A").1.intern "B").1.intern "A").2 = 0 ∧
      (((Interner.new.intern "A").1.intern "B").1.intern "A").1.len = 2 ∧
      (((Interner.new.intern "A").1.intern "B").1.intern "A").1.lookup 1 = some "B") := by
  constructor
  · intro l name i
    exact ⟨intern_id_of_not_found _ name,
      IdsDense_internList l Interner.new IdsDense_new i,
      internList_len_card l⟩
  · decide

theorem intern_dense_len_witness :
    ((internList Interner.new ["A"]).intern "B").2 = (internList Interner.new ["A"]).len :=
  (intern_dense_len.1 ["A"] "B" 0).1 (by decide)

/-! ## Matcher lemmas -/

theorem set_append_len {α : Type} (l₁ l₂ : List α) (a : α) :
    (l₁ ++ l₂).set l₁.length a = l₁ ++ l₂.set 0 a := by
  induction l₁ with
  | nil => simp
  | cons x xs ih => simp [ih]

theorem computeCandidates_cons (g : GraphIndex) (e : PatternEdge)
    (pat : List PatternEdge) (cv : Nat) (asg : List (Option Nat))
    (acc : Option (List Nat)) :
    computeCandidates g (e :: pat) cv asg acc
      = computeCandidates g pat cv asg (edgeStep g cv asg acc e) := rfl

/-- Every candidate produced by the constraint loop comes from some
`get_neighbors` call (or was already in the accumulator). -/
theorem computeCandidates_subset (g : GraphIndex) (cv : Nat)
    (asg : List (Option Nat)) :
    ∀ (pat : List PatternEdge) (acc : Option (List Nat)) (out : List Nat) (c : Nat),
      computeCandidates g pat cv asg acc = some out → c ∈ out →
      (∃ n t d, c ∈ g.get_neighbors n t d) ∨ ∃ a, acc = some a ∧ c ∈ a := by
  intro pat
  induction pat with
  | nil =>
    intro acc out c h hc
    right
    exact ⟨out, h, hc⟩
  | cons e pat ih =>
    intro acc out c h hc
    rw [computeCandidates_cons] at h
    rcases ih _ _ _ h hc with h1 | ⟨a, ha, hca⟩
    · exact Or.inl h1
    · unfold edgeStep at ha
      split at ha
      · unfold intersect at ha
        cases acc with
        | none =>
          injection ha with ha
          exact Or.inl ⟨_, _, _, ha ▸ hca⟩
        | some curr =>
          injection ha with ha
          exact Or.inr ⟨curr, rfl, List.mem_filter.mp (ha ▸ hca) |>.1⟩
      · split at ha
        · unfold intersect at ha
          cases acc with
          | none =>
            injection ha with ha
            exact Or.inl ⟨_, _, _, ha ▸ hca⟩
          | some curr =>
            injection ha with ha
            exact Or.inr ⟨curr, rfl, List.mem_filter.mp (ha ▸ hca) |>.1⟩
        · exact Or.inr ⟨a, ha, hca⟩

/-- Characterization of the backtracking results: starting from an
assignment whose first `bound.length` slots hold the pairwise-distinct
nodes `bound` (all of them marked used) and whose remaining `fuel` slots
are unbound, every emitted row extends `bound`, has no duplicate nodes,
and every node beyond `bound` was drawn from a `get_neighbors` answer. -/
theorem backtrackAux_mem (g : GraphIndex) (pat : List PatternEdge) :
    ∀ (fuel : Nat) (bound used : List Nat),
      bound.Nodup → (∀ x ∈ bound, x ∈ used) →
      ∀ res ∈ backtrackAux g pat fuel bound.length
          (bound.map some ++ List.replicate fuel none) used,
        res.Nodup ∧ ∃ ext, res = bound ++ ext ∧
          ∀ x ∈ ext, ∃ n t d, x ∈ g.get_neighbors n t d := by
  intro fuel
  induction fuel with
  | zero =>
    intro bound used hnd hsub res hres
    simp only [backtrackAux, List.replicate, List.append_nil, List.map_map,
      List.mem_singleton] at hres
    have hid : res = bound := by
      rw [hres]
      simp [Function.comp_def]
    subst hid
    exact ⟨hnd, [], by simp, by simp⟩
  | succ fuel ih =>
    intro bound used hnd hsub res hres
    rw [backtrackAux] at hres
    cases hc : computeCandidates g pat bound.length
        (bound.map some ++ List.replicate (fuel + 1) none) none with
    | none =>
      rw [hc] at hres
      simp at hres
    | some cands =>
      rw [hc] at hres
      simp only [List.mem_flatMap] at hres
      obtain ⟨cand, hcf, hres⟩ := hres
      have hcands : cand ∈ cands := (List.mem_filter.mp hcf).1
      have hcnotused : cand ∉ used := by
        have hb := (List.mem_filter.mp hcf).2
        simp at hb
        exact hb
      have hset : (bound.map some ++ List.replicate (fuel + 1) none).set
            bound.length (some cand)
          = (bound ++ [cand]).map some ++ List.replicate fuel none := by
        rw [show bound.length = (bound.map some).length by simp,
          set_append_len, List.replicate_succ, List.set_cons_zero]
        simp
      rw [hset] at hres
      rw [show bound.length + 1 = (bound ++ [cand]).length by simp] at hres
      have hcnotbound : cand ∉ bound := fun hmem => hcnotused (hsub cand hmem)
      have hnd' : (bound ++ [cand]).Nodup := by
        rw [List.nodup_append]
        exact ⟨hnd, by simp, by simp [List.disjoint_singleton]; exact hcnotbound⟩
      have hsub' : ∀ x ∈ bound ++ [cand], x ∈ cand :: used := by
        intro x hx
        rcases List.mem_append.mp hx with hxb | hxc
        · exact List.mem_cons_of_mem _ (hsub x hxb)
        · simp at hxc
          subst hxc
          exact List.mem_cons_self _ _
      obtain ⟨hres_nd, ext', hext', hforall⟩ := ih (bound ++ [cand]) (cand :: used)
        hnd' hsub' res hres
      refine ⟨hres_nd, cand :: ext', ?_, ?_⟩
      · rw [hext']
        simp
      · intro x hx
        rcases List.mem_cons.mp hx with rfl | hx'
        · rcases computeCandidates_subset g bound.length _ pat none cands x hc hcands
            with hgood | ⟨a, ha, -⟩
          · exact hgood
          · exact Option.noConfusion ha
        · exact hforall x hx'

theorem resolvePattern_none (g : GraphIndex) :
    ∀ (pattern : List JsPatternEdge) (p : JsPatternEdge), p ∈ pattern →
      g.get_type_id p.edge_type = none → resolvePattern g pattern = none := by
  intro pattern
  induction pattern with
  | nil =>
    intro p hp
    simp at hp
  | cons q rest ih =>
    intro p hp hnone
    rcases List.mem_cons.mp hp with rfl | hp'
    · simp [resolvePattern, hnone]
    · rw [resolvePattern]
      cases hq : g.get_type_id q.edge_type with
      | none => rfl
      | some tid => rw [ih p hp' hnone]

/-! ## Claim theorems about the matcher and the binding layer -/

/-- Claim C4: every assignment returned by `find_matches` binds distinct
nodes to distinct variables, and on the self-loop graph the single-edge
pattern over two variables yields no match. -/
theorem find_matches_injective :
    (∀ (g : GraphIndex) (pat : List PatternEdge) (starts : List Nat)
        (res : List Nat), res ∈ find_matches g pat starts → res.Nodup) ∧
    find_matches gSelf [⟨0, 1, 0, Direction.Outgoing⟩] [0] = [] := by
  constructor
  · intro g pat starts res hres
    rw [find_matches] at hres
    simp only [List.mem_flatMap] at hres
    obtain ⟨s, hsf, hres⟩ := hres
    have h0 : (List.replicate (numVars pat) (none : Option Nat)).set 0 (some s)
        = [s].map some ++ List.replicate (numVars pat - 1) none := by
      simp [numVars, List.replicate_succ]
    rw [h0] at hres
    exact (backtrackAux_mem g pat (numVars pat - 1) [s] [s] (by simp)
      (by intro x hx; exact hx) res hres).1
  · decide

theorem find_matches_injective_witness : List.Nodup ([0, 1] : List Nat) :=
  find_matches_injective.1 gAB [⟨0, 1, 0, Direction.Outgoing⟩] [0] [0, 1] (by decide)

/-- Claim C5: provided the adjacency store never reports a tombstoned node
as a neighbor (the contract of the spec for the topology module: removed nodes
are filtered on read), no assignment returned by `find_matches` binds any
variable, the start variable included, to a tombstoned node. -/
theorem find_matches_no_tombstone (g : GraphIndex) (pat : List PatternEdge)
    (starts : List Nat)
    (hg : ∀ n t d x, x ∈ g.get_neighbors n t d → g.is_node_deleted x = false) :
    ∀ res ∈ find_matches g pat starts, ∀ x ∈ res, g.is_node_deleted x = false := by
  intro res hres x hx
  rw [find_matches] at hres
  simp only [List.mem_flatMap] at hres
  obtain ⟨s, hsf, hres⟩ := hres
  have hs : g.is_node_deleted s = false := by
    have := (List.mem_filter.mp hsf).2
    simpa using this
  have h0 : (List.replicate (numVars pat) (none : Option Nat)).set 0 (some s)
      = [s].map some ++ List.replicate (numVars pat - 1) none := by
    simp [numVars, List.replicate_succ]
  rw [h0] at hres
  obtain ⟨-, ext, hext, hforall⟩ := backtrackAux_mem g pat (numVars pat - 1) [s] [s]
    (by simp) (by intro y hy; exact hy) res hres
  rw [hext] at hx
  rcases List.mem_append.mp hx with hxs | hxe
  · simp at hxs
    subst hxs
    exact hs
  · obtain ⟨n, t, d, hmem⟩ := hforall x hxe
    exact hg n t d x hmem

theorem find_matches_no_tombstone_witness : gAB.is_node_deleted 1 = false :=
  find_matches_no_tombstone gAB [⟨0, 1, 0, Direction.Outgoing⟩] [0]
    (fun _ _ _ _ _ => rfl) [0, 1] (by decide) 1 (by decide)

/-- Claim C1 (evaluation at the failing input): the index holds the single
edge `A ──t──▶ B` whose validity interval `[1000, 2000)` admits no edge at
`as_of = 5000`, yet `match_pattern` with `as_of = 5000` still returns the
assignment, because the neighbor lookups of the matcher carry no timestamp: the
temporal filter is never applied to pattern-edge lookups. -/
theorem matcher_drops_as_of :
    NativeGraph.match_pattern gAB ["A"] [⟨0, 1, "t", none⟩] (some 5000)
      = [["A", "B"]] ∧
    find_matches gAB [⟨0, 1, 0, Direction.Outgoing⟩] [0] = [[0, 1]] ∧
    edgesAB.map (fun e => edge_admitted e.valid_from e.valid_to (some 5000))
      = [false] := by
  refine ⟨by decide, by decide, by decide⟩

/-- Claim C2: a present query timestamp admits an edge iff the optional
lower bound is absent or at most the timestamp and the optional upper bound
is absent or strictly above it; an absent timestamp admits every edge
regardless of its bounds. -/
theorem temporal_filter_admits :
    ∀ (vf vt : Option Int) (t : Int),
      (edge_admitted vf vt (some t) = true ↔
        (∀ f, vf = some f → f ≤ t) ∧ (∀ u, vt = some u → t < u)) ∧
      edge_admitted vf vt none = true := by
  intro vf vt t
  cases vf <;> cases vt <;> simp [edge_admitted]

theorem temporal_filter_admits_witness :
    edge_admitted (some 1000) (some 2000) none = true :=
  (temporal_filter_admits (some 1000) (some 2000) 0).2

/-- Claim C6: `match_pattern` returns an empty result list (rather than an
error) whenever some pattern edge carries an edge-type label unknown to the
type interner, and likewise whenever no start id resolves through the node
interner. -/
theorem match_pattern_empty_cases :
    ∀ (g : GraphIndex) (start_ids : List String) (pattern : List JsPatternEdge)
      (ts : Option Int),
      ((∃ p ∈ pattern, g.get_type_id p.edge_type = none) →
        NativeGraph.match_pattern g start_ids pattern ts = []) ∧
      (start_ids.filterMap g.lookup_id = [] →
        NativeGraph.match_pattern g start_ids pattern ts = []) := by
  intro g sids pattern ts
  constructor
  · rintro ⟨p, hp, hnone⟩
    rw [NativeGraph.match_pattern, resolvePattern_none g pattern p hp hnone]
  · intro h
    cases hr : resolvePattern g pattern with
    | none => rw [NativeGraph.match_pattern, hr]
    | some core => simp [NativeGraph.match_pattern, hr, h]

theorem match_pattern_empty_cases_witness :
    NativeGraph.match_pattern gAB ["A"] [⟨0, 1, "u", none⟩] none = [] ∧
    NativeGraph.match_pattern gAB ["Z"] [⟨0, 1, "t", none⟩] none = [] :=
  ⟨(match_pattern_empty_cases gAB ["A"] [⟨0, 1, "u", none⟩] none).1
      ⟨⟨0, 1, "u", none⟩, List.mem_singleton.mpr rfl, by decide⟩,
    (match_pattern_empty_cases gAB ["Z"] [⟨0, 1, "t", none⟩] none).2 (by decide)⟩

/-- Claim C7 counterexample: the `as_of` argument of `match_pattern` is not
passed through to the index.  At the concrete input below, the query at
`as_of = 5000` returns the same result as the query with `as_of` absent —
namely the match over the single edge of the index even though that edge is
not admitted at timestamp 5000 — because the converted timestamp is dropped
at the matcher call, which declares no timestamp parameter. -/
theorem match_pattern_as_of_dropped :
    NativeGraph.match_pattern gAB ["A"] [⟨0, 1, "t", none⟩] (some 5000)
      = NativeGraph.match_pattern gAB ["A"] [⟨0, 1, "t", none⟩] none ∧
    NativeGraph.match_pattern gAB ["A"] [⟨0, 1, "t", none⟩] none
      = [["A", "B"]] ∧
    edgesAB.map (fun e => edge_admitted e.valid_from e.valid_to (some 5000))
      ≠ [true] := by
  refine ⟨rfl, by decide, by decide⟩

/-- Claim C7 as amended: at the host surface, `add_edge` scales its optional
millisecond bounds by 1000 before handing them to the index, while
`traverse` and `traverse_recursive` forward their microsecond `as_of`
unchanged; `match_pattern` converts its `as_of` equally without scaling,
but the converted value is dropped at the matcher call (whose signature has
no timestamp parameter), so it never reaches the index and the
`match_pattern` result is independent of `as_of`. -/
theorem timestamp_units :
    ∀ (source target edge_type : String) (v w : Int) (g : GraphIndex)
      (sources start_ids : List String) (et dir : Option String) (u : Int)
      (mn mx : Option Nat) (pattern : List JsPatternEdge) (ts1 ts2 : Option Int),
      NativeGraph.add_edge source target edge_type (some v) (some w)
        = (source, target, edge_type, some (v * 1000), some (w * 1000)) ∧
      NativeGraph.add_edge source target edge_type none none
        = (source, target, edge_type, none, none) ∧
      NativeGraph.traverse g sources et dir (some u)
        = g.traverse sources et (parseDir dir) (some u) ∧
      NativeGraph.traverse g sources et dir none
        = g.traverse sources et (parseDir dir) none ∧
      NativeGraph.traverse_recursive g sources et dir mn mx (some u)
        = g.traverse_recursive sources et (parseDir dir) (mn.getD 1) (mx.getD 1) (some u) ∧
      NativeGraph.traverse_recursive g sources et dir mn mx none
        = g.traverse_recursive sources et (parseDir dir) (mn.getD 1) (mx.getD 1) none ∧
      NativeGraph.match_pattern_ts (some u) = some u ∧
      NativeGraph.match_pattern_ts none = none ∧
      NativeGraph.match_pattern g start_ids pattern ts1
        = NativeGraph.match_pattern g start_ids pattern ts2 := by
  intros
  exact ⟨rfl, rfl, rfl, rfl, rfl, rfl, rfl, rfl, rfl⟩

/-- Claim C9: an omitted depth bound of `traverse_recursive` defaults to 1;
with both bounds omitted the index receives `min = 1, max = 1`. -/
theorem traverse_recursive_defaults :
    ∀ (g : GraphIndex) (sources : List String) (et dir : Option String)
      (ts : Option Int) (mn mx : Nat),
      (NativeGraph.traverse_recursive g sources et dir none none ts
        = g.traverse_recursive sources et (parseDir dir) 1 1 ts) ∧
      (NativeGraph.traverse_recursive g sources et dir none (some mx) ts
        = g.traverse_recursive sources et (parseDir dir) 1 mx ts) ∧
      (NativeGraph.traverse_recursive g sources et dir (some mn) none ts
        = g.traverse_recursive sources et (parseDir dir) mn 1 ts) := by
  intro g sources et dir ts mn mx
  cases ts <;> exact ⟨rfl, rfl, rfl⟩
